import Mathlib

/-!
Verification of `xcresult_extract.py`, a single-file utility that extracts
performance-test metrics from Apple `.xcresult` bundles.

The Python source is shallowly embedded here:

* JSON documents (as produced by `json.loads` of `xcresulttool` output) become
  the inductive type `Json`; Python's subscript / `.get` accessors become
  `Except`-valued functions whose error cases mirror the exceptions CPython
  would raise (`KeyError`, `TypeError`, `AttributeError`, `ZeroDivisionError`, ...).
* Python floats are idealised as exact fractions `PyF` (the script only feeds
  decimal literals, their sums and one division through floats); `str()` /
  `"{:.2f}".format` of a float are modelled by `floatStr` / `formatF2`, exact
  on the decimal values the program handles. Filesystem modification times are
  only ever compared, never computed with, and stay `ℚ`.
* Filesystem and subprocess effects are abstracted into an `Env` record
  (directory listings, modification times, `xcresulttool` JSON responses);
  each source function takes the data it would have fetched.
* `sys.stdout` writes become a list of `OutEvent`s; the program outcome is the
  inductive `MainResult`.

Definition names follow the Python source where possible.
-/

/-- Python exceptions that the script can raise, as mirrored by the model. -/
inductive PyErr where
  | keyError (key : String)
  | indexError
  | typeError
  | attributeError
  | zeroDivisionError
  | valueError (msg : String)
  | lookupError (msg : String)
deriving DecidableEq

deriving instance DecidableEq for Except

/-- Exact fractions modelling Python floats. The script only ever feeds
decimal literals, sums of them and one division by a list length through
floats, so every value it handles is an exact fraction; `den` is positive for
every value the program constructs. All arithmetic is explicit `Int`/`Nat`
arithmetic so that the kernel can evaluate it. -/
structure PyF where
  num : ℤ
  den : ℕ
deriving DecidableEq

/-- The float `0` (`value_sum = 0` starts as the integer zero). -/
def PyF.zero : PyF := ⟨0, 1⟩

/-- Float addition (`value_sum += float(...)`). -/
def PyF.add (a b : PyF) : PyF :=
  ⟨a.num * b.den + b.num * a.den, a.den * b.den⟩

/-- Float division by a list length (`value_sum / len(values)`). -/
def PyF.divNat (a : PyF) (n : ℕ) : PyF := ⟨a.num, a.den * n⟩

/-- Sum of a list of floats, folded left like the Python loop. -/
def sumF (l : List PyF) : PyF := l.foldl PyF.add PyF.zero

/-- Parsed JSON documents (`json.loads` output): null, strings, numbers,
arrays and objects. -/
inductive Json where
  | null : Json
  | str : String → Json
  | num : PyF → Json
  | arr : List Json → Json
  | obj : List (String × Json) → Json

/-- Association-list lookup used for JSON objects; keys produced by `json.loads`
are unique, so first-match lookup is faithful. -/
def lookupKey : List (String × Json) → String → Option Json
  | [], _ => none
  | (k, v) :: rest, key => if k = key then some v else lookupKey rest key

/-- Python `x[k]` on a parsed JSON value: key lookup on a dict (`KeyError` when
missing), `TypeError` on any non-dict. -/
def Json.sub (j : Json) (k : String) : Except PyErr Json :=
  match j with
  | .obj fields =>
    match lookupKey fields k with
    | some v => .ok v
    | none => .error (.keyError k)
  | _ => .error .typeError

/-- Python `x.get(k)` on a parsed JSON value: `None` (here `none`) when the key
is missing, `AttributeError` when `x` is not a dict. -/
def Json.dictGet (j : Json) (k : String) : Except PyErr (Option Json) :=
  match j with
  | .obj fields => .ok (lookupKey fields k)
  | _ => .error .typeError

/-- Python `x[i]` for a non-negative index: `IndexError` past the end,
`TypeError` on a non-list. -/
def Json.idx (j : Json) (i : Nat) : Except PyErr Json :=
  match j with
  | .arr l =>
    match l.get? i with
    | some v => .ok v
    | none => .error .indexError
  | _ => .error .typeError

/-- Python `x[-1]`: the last element of a list (`IndexError` when empty). -/
def Json.idxLast (j : Json) : Except PyErr Json :=
  match j with
  | .arr l =>
    match l.getLast? with
    | some v => .ok v
    | none => .error .indexError
  | _ => .error .typeError

/-- Extract a JSON string. The script concatenates or joins these values, which
in CPython requires them to be `str`; a non-string is modelled as the
`TypeError` that the subsequent string operation would raise. -/
def Json.asStr : Json → Except PyErr String
  | .str s => .ok s
  | _ => .error .typeError

/-- Extract a JSON array; iterating a non-list is modelled as `TypeError`
(the documents the script consumes store `_values` as arrays). -/
def Json.asArr : Json → Except PyErr (List Json)
  | .arr l => .ok l
  | _ => .error .typeError

/-- Python truthiness of a parsed JSON value (`if x:`). -/
def truthy : Json → Bool
  | .null => false
  | .str s => !s.data.isEmpty
  | .num q => q.num ≠ 0
  | .arr l => !l.isEmpty
  | .obj l => !l.isEmpty

/-- Digits of a numeral folded into a `Nat` (caller checks they are digits). -/
def natOfDigits (l : List Char) : Nat :=
  l.foldl (fun acc c => acc * 10 + (c.toNat - 48)) 0

/-- Python `float(s)` on the decimal literals the script encounters:
an optional sign, an integer part and an optional fractional part
(exponents, `inf`/`nan` and underscores do not occur in the consumed
documents and are outside the modelled subset). -/
def parsePyFloat (s : String) : Option PyF :=
  let step : List Char → Option PyF := fun l =>
    match l.splitOn '.' with
    | [ip] =>
      if !ip.isEmpty && ip.all Char.isDigit then some ⟨natOfDigits ip, 1⟩ else none
    | [ip, fp] =>
      if (ip.all Char.isDigit && fp.all Char.isDigit) && (!ip.isEmpty || !fp.isEmpty) then
        some ⟨natOfDigits ip * 10 ^ fp.length + natOfDigits fp, 10 ^ fp.length⟩
      else none
    | _ => none
  match s.data with
  | '-' :: rest => (step rest).map (fun q => ⟨-q.num, q.den⟩)
  | '+' :: rest => step rest
  | l => step l

/-- Python `float(x)` applied to a fetched JSON value (`ValueError` on a bad
string, `TypeError` on `None` and other non-numeric shapes). -/
def pyFloat : Json → Except PyErr PyF
  | .num q => .ok q
  | .str s =>
    match parsePyFloat s with
    | some q => .ok q
    | none => .error (.valueError s)
  | _ => .error .typeError

/-- Round the fraction `x` to the nearest integer, ties to the even integer
(the rounding used by Python's fixed-point formatting). -/
def roundHalfEven (x : PyF) : ℤ :=
  let d : ℤ := x.den
  let f := Int.fdiv x.num d
  let m := Int.fmod x.num d
  if 2 * m < d then f
  else if d < 2 * m then f + 1
  else if f % 2 = 0 then f else f + 1

/-- Left-pad the decimal rendering of `n` with zeros to `k` digits. -/
def padZeros (k : Nat) (n : Nat) : String :=
  let s := toString n
  ⟨List.replicate (k - s.length) '0' ++ s.data⟩

/-- Python `"{:.2f}".format(q)`: the value rounded to two decimal places
(nearest, ties to even) and rendered with exactly two fractional digits. -/
def formatF2 (q : PyF) : String :=
  let n := roundHalfEven ⟨q.num * 100, q.den⟩
  let a := n.natAbs
  (if n < 0 then "-" else "") ++ toString (a / 100) ++ "." ++ padZeros 2 (a % 100)

/-- Least exponent `k` (searched with fuel, starting from the given `k`) such
that `a * 10 ^ k` is divisible by `d`. -/
def decExpAux (a d : ℕ) : ℕ → ℕ → Option ℕ
  | _, 0 => none
  | k, fuel + 1 =>
    if a * 10 ^ k % d = 0 then some k else decExpAux a d (k + 1) fuel

/-- Python `str()` of a float, on the exact decimal values the script
produces: integral values render as `"n.0"`, other decimal fractions with
their shortest exact expansion. Fractions with no finite decimal expansion
(not reachable from the decimal inputs the script averages) fall back to a
`num/den` rendering. -/
def floatStr (q : PyF) : String :=
  let sign := if q.num < 0 then "-" else ""
  let a := q.num.natAbs
  let d := q.den
  if a % d = 0 then sign ++ toString (a / d) ++ ".0"
  else
    match decExpAux a d 1 64 with
    | some k =>
      let n := a * 10 ^ k / d
      sign ++ toString (n / 10 ^ k) ++ "." ++ padZeros k (n % 10 ^ k)
    | none => sign ++ toString a ++ "/" ++ toString d

/-- Python `int(s)` on the decimal count strings the script reads. -/
def pyInt (s : String) : Option ℤ :=
  let digits : List Char → Option ℤ := fun l =>
    if !l.isEmpty && l.all Char.isDigit then some (natOfDigits l) else none
  match s.data with
  | '-' :: rest => (digits rest).map (fun n => -n)
  | '+' :: rest => digits rest
  | l => digits l

/-- Python `','.join(items)`. -/
def joinC (items : List String) : String :=
  ⟨List.intercalate [','] (items.map String.data)⟩

/-- Python `s.split(',')`. -/
def pySplit (s : String) : List String :=
  (s.data.splitOn ',').map (fun l => (⟨l⟩ : String))

/-- Source: `arg.startswith('-')`. -/
def startsDash (s : String) : Bool :=
  match s.data with
  | [] => false
  | c :: _ => c = '-'

/-- Source lines 73-77: the set of xcodebuild flags the script extracts. -/
def INTERESTING_FLAGS : List String :=
  ["-resultBundlePath", "-scheme", "-project"]

/-- The empty flag mapping (`result = {}`). -/
def emptyFlags : String → Option String := fun _ => none

/-- Dict assignment `result[key] = arg` (later assignments overwrite). -/
def setFlag (m : String → Option String) (k v : String) : String → Option String :=
  fun x => if x = k then some v else m x

/-- One iteration of the scanning loop in `parse_xcodebuild_flags`
(source lines 92-98); the state is the mapping so far and the pending key. -/
def parseStep (st : (String → Option String) × Option String) (arg : String) :
    (String → Option String) × Option String :=
  if startsDash arg then
    if arg ∈ INTERESTING_FLAGS then (st.1, some arg) else st
  else
    match st.2 with
    | some key => (setFlag st.1 key arg, none)
    | none => st

/-- Source lines 84-100: scan the xcodebuild command line and collect the
values of the recognized flags. -/
def parse_xcodebuild_flags (args : List String) : String → Option String :=
  (args.foldl parseStep (emptyFlags, none)).1

/-- Python `os.path.basename` for the slash-separated paths the script sees. -/
def basename (p : String) : String :=
  ⟨(p.data.splitOn '/').getLastD []⟩

/-- Index of the last `'.'` in a character list, when there is one. -/
def lastDotIdx (l : List Char) : Option ℕ :=
  ((l.enum.filter (fun pr => pr.2 = '.')).map (fun pr => pr.1)).getLast?

/-- Python `os.path.splitext` applied to a basename: split at the last dot,
except when every character before that dot is itself a dot. -/
def splitext (b : String) : String × String :=
  match lastDotIdx b.data with
  | none => (b, "")
  | some d =>
    if (b.data.take d).all (fun c => c = '.') then (b, "")
    else (⟨b.data.take d⟩, ⟨b.data.drop d⟩)

/-- Source lines 103-117: extract the project name from a `.xcodeproj` path,
raising `ValueError` on any other extension. -/
def project_from_project_path (path : String) : Except PyErr String :=
  if (splitext (basename path)).2 = ".xcodeproj" then .ok (splitext (basename path)).1
  else .error (.valueError (path ++ " is not a valid project path"))

/-- Map an `Except`-producing function over a list, propagating the first
error (the shape of Python loops that append per-element results). -/
def exceptMapL (f : α → Except PyErr β) : List α → Except PyErr (List β)
  | [] => .ok []
  | x :: xs => do
    let y ← f x
    let ys ← exceptMapL f xs
    .ok (y :: ys)

/-- Source lines 222-236 (`find_device_info`): the last action's target-device
model identifier, from the bundle's top-level JSON document. -/
def find_device_info (parsed : Json) : Except PyErr String := do
  let actions ← (← parsed.sub "actions").sub "_values"
  let action ← actions.idxLast
  let r ← (← (← (← action.sub "runDestination").sub "targetDeviceRecord").sub "modelUTI").sub "_value"
  r.asStr

/-- Source lines 238-252 (`find_test_count`): the top-level total subtest
count, as the string stored in the document. -/
def find_test_count (parsed : Json) : Except PyErr String := do
  let r ← (← (← parsed.sub "metrics").sub "testsCount").sub "_value"
  r.asStr

/-- Source lines 254-269 (`find_test_id`): the id of the last action's test
output. -/
def find_test_id (parsed : Json) : Except PyErr String := do
  let actions ← (← parsed.sub "actions").sub "_values"
  let action ← actions.idxLast
  let r ← (← (← (← action.sub "actionResult").sub "testsRef").sub "id").sub "_value"
  r.asStr

/-- Source line 288: the fixed-depth traversal to the `ids`-th subtest summary
id, `action.testableSummaries._values[0].tests._values[0].subtests._values[0]
.subtests._values[0].subtests._values[ids].summaryRef.id._value`. -/
def summaryAt (action : Json) (ids : Nat) : Except PyErr String := do
  let t ← (← (← action.sub "testableSummaries").sub "_values").idx 0
  let t ← (← (← t.sub "tests").sub "_values").idx 0
  let t ← (← (← t.sub "subtests").sub "_values").idx 0
  let t ← (← (← t.sub "subtests").sub "_values").idx 0
  let t ← (← (← t.sub "subtests").sub "_values").idx ids
  let r ← (← (← t.sub "summaryRef").sub "id").sub "_value"
  r.asStr

/-- Source lines 271-302 (`find_summary_id`): collect one summary id per
subtest index `0, ..., tests_count - 1` from the test-output document
(`parsed` is the JSON fetched with `--id test_id`). -/
def find_summary_id (parsed : Json) (tests_count : Nat) : Except PyErr (List String) := do
  let actions ← (← parsed.sub "summaries").sub "_values"
  let action ← actions.idx 0
  exceptMapL (summaryAt action) (List.range tests_count)

/-- Source lines 330-332: the `identifier` section of `collect_log_output`;
the field is appended when present and truthy. -/
def identifierItems (activity_log : Json) : Except PyErr (List String) := do
  match ← activity_log.dictGet "identifier" with
  | none => .ok []
  | some test_name =>
    if truthy test_name then do
      let v ← test_name.sub "_value"
      let s ← v.asStr
      .ok [s]
    else .ok []

/-- Source lines 334-337: the `duration` section of `collect_log_output`; the
field is parsed as a float and formatted to two decimal places. -/
def durationItems (activity_log : Json) : Except PyErr (List String) := do
  match ← activity_log.dictGet "duration" with
  | none => .ok []
  | some duration =>
    if truthy duration then do
      let v ← duration.sub "_value"
      let q ← pyFloat v
      .ok [formatF2 q]
    else .ok []

/-- Source lines 343-347: parse every measurement value of one metric group
(`metric.measurements._values`, each entry's `_value` through `float`). -/
def groupValues (metric : Json) : Except PyErr (List PyF) := do
  let measurementOpt ← metric.dictGet "measurements"
  let measurement ← match measurementOpt with
    | none => .error .attributeError
    | some m => pure m
  let valuesOpt ← measurement.dictGet "_values"
  let values ← match valuesOpt with
    | none => .error .typeError
    | some v => v.asArr
  exceptMapL (fun value => do
    let vOpt ← value.dictGet "_value"
    match vOpt with
    | none => .error .typeError
    | some v => pyFloat v) values

/-- Source lines 342-349, one loop iteration: the mean of one metric group's
measurement values, rendered with `str` — dividing by the length, which
raises `ZeroDivisionError` when the group has no values. -/
def metricGroup (metric : Json) : Except PyErr String := do
  let qs ← groupValues metric
  match qs with
  | [] => .error .zeroDivisionError
  | _ => .ok (floatStr (PyF.divNat (sumF qs) qs.length))

/-- Source lines 339-349: the `performanceMetrics` section of
`collect_log_output`; skipped when the key is absent or `None`, otherwise one
mean per metric group in encounter order. -/
def metricItems (activity_log : Json) : Except PyErr (List String) := do
  match ← activity_log.dictGet "performanceMetrics" with
  | none => .ok []
  | some .null => .ok []
  | some pm => do
    let metricsOpt ← pm.dictGet "_values"
    let metrics ← match metricsOpt with
      | none => .error .typeError
      | some m => m.asArr
    exceptMapL metricGroup metrics

/-- Source lines 322-349 (`collect_log_output`): the items appended to
`result`, in order — test name, formatted duration, then the metric means. -/
def collect_log_output (activity_log : Json) : Except PyErr (List String) := do
  let a ← identifierItems activity_log
  let b ← durationItems activity_log
  let c ← metricItems activity_log
  .ok (a ++ b ++ c)

/-- Source lines 305-319 (`export_log`): the collected items of the fetched
activity-log document, comma-joined (`contents` is the JSON fetched with
`--id summary_id`). -/
def export_log (contents : Json) : Except PyErr String := do
  let r ← collect_log_output contents
  .ok (joinC r)

/-- Source line 132: the pattern `([^-]*)-<scheme>-`, anchored at the start of
an entry name (`re.match`): a dash-free stretch, a dash, the scheme, a dash. -/
def schemePat (scheme : String) (name : String) : Bool :=
  let l := name.data
  let pre := l.takeWhile (fun c => c ≠ '-')
  List.isPrefixOf ('-' :: (scheme.data ++ ['-'])) (l.drop pre.length)

/-- Source line 154: the pattern `<project>-`, anchored at the start of an
entry name. -/
def projectPat (project : String) (name : String) : Bool :=
  List.isPrefixOf (project.data ++ ['-']) name.data

/-- The filesystem and subprocess facts `main` consumes: the user's home
directory, directory listings, per-path modification times, and the JSON
documents `xcresulttool get` would print for a bundle path (optionally with an
`--id`). A raised `OSError`/`CalledProcessError`/JSON decode error is an
`Except.error`. -/
structure Env where
  home : String
  listdir : String → Except PyErr (List String)
  mtime : String → ℚ
  getPath : String → Except PyErr Json
  getId : String → String → Except PyErr Json

/-- Source lines 168-192 (`find_newest_matching_prefix`): scan the directory
listing, keep the matching entry (joined to `path`) with the greatest
modification time; strict comparison, so the earliest-listed entry wins ties.
`pat` stands for the compiled regular expression the source passes in. -/
def newestStep (path : String) (pat : String → Bool) (mtime : String → ℚ)
    (result : Option String) (entry : String) : Option String :=
  if pat entry then
    match result with
    | none => some (path ++ "/" ++ entry)
    | some r =>
      if mtime r < mtime (path ++ "/" ++ entry) then some (path ++ "/" ++ entry)
      else some r
  else result

def find_newest_matching_prefix (path : String) (pat : String → Bool)
    (mtime : String → ℚ) (entries : List String) : Option String :=
  entries.foldl (newestStep path pat mtime) none

/-- Source lines 144-165 (`find_project_path`): the newest project directory
in DerivedData whose name starts with `<project>-`. -/
def find_project_path (project : String) (env : Env) : Except PyErr String := do
  let path := env.home ++ "/Library/Developer/Xcode/DerivedData"
  let entries ← env.listdir path
  match find_newest_matching_prefix path (projectPat project) env.mtime entries with
  | none =>
    .error (.lookupError ("Could not find project derived data for " ++ project ++ " in " ++ path))
  | some result => .ok result

/-- Source lines 120-141 (`find_xcresult_path`): the newest bundle under the
project's `Logs/Test` directory whose name matches the scheme pattern. -/
def find_xcresult_path (project scheme : String) (env : Env) : Except PyErr String := do
  let project_path ← find_project_path project env
  let bundle_dir := project_path ++ "/Logs/Test"
  let entries ← env.listdir bundle_dir
  match find_newest_matching_prefix bundle_dir (schemePat scheme) env.mtime entries with
  | none =>
    .error (.lookupError ("Could not find xcresult bundle for " ++ scheme ++ " in " ++ bundle_dir))
  | some xcresult => .ok xcresult

/-- Source line 39: the fixed label list `main` zips against the split
aggregator output. -/
def defaultValues : List String :=
  ["testName", "Duration", "Disk Local Writes", "Clock Monotonic Time", "CPU Time",
   "Memory Physical", "CPU Instructions Retired", "Memory Peak Physical", "CPU Cycles"]

/-- Source lines 58-61: the association printed per test,
`dict(zip(defaultValues, log.split(",")))` (the labels are pairwise distinct,
so the dict is this positional association). -/
def dictOfData (log : String) : List (String × String) :=
  defaultValues.zip (pySplit log)

/-- Observable stdout output of one run: plain lines, the per-test dict dump
(`print(dictOfData)`), and the summary-id list printed inside
`find_summary_id` (`print(resultDef)`). -/
inductive OutEvent where
  | line (s : String)
  | dictDump (d : List (String × String))
  | idsDump (ids : List String)

/-- Source lines 51-63, one iteration: export the summary's log, fetch the
device info, write the `device,log` line, and print the zipped dict. -/
def perTest (env : Env) (xcresult_path sid : String) :
    Except PyErr (List OutEvent × List (String × String)) := do
  let logDoc ← env.getId xcresult_path sid
  let log ← export_log logDoc
  let topDoc ← env.getPath xcresult_path
  let device_info ← find_device_info topDoc
  let d := dictOfData log
  .ok ([.line (device_info ++ "," ++ log), .dictDump d], d)

/-- The per-test loop over all summary ids, accumulating stdout events and
the rows later written to `data.txt`. -/
def runTests (env : Env) (xcresult_path : String) :
    List String → Except PyErr (List OutEvent × List (List (String × String)))
  | [] => .ok ([], [])
  | sid :: rest => do
    let (ev, d) ← perTest env xcresult_path sid
    let (evs, ds) ← runTests env xcresult_path rest
    .ok (ev ++ evs, d :: ds)

/-- The module docstring (source lines 3-10), printed on an empty command
line. -/
def usageText : String :=
  "Prints performance result test data from test runs captured in Apple .xcresult bundles.\n\nUSAGE: xcresult_extract.py -project <path> -scheme <scheme> [other flags...]\n\nxcresult_extract.py finds and displays the log output associated with an xcodebuild\ninvocation. Pass your entire xcodebuild command-line as arguments to this script\nand it will find the output associated with the most recent invocation.\n"

/-- Outcome of one invocation: the usage message with an exit status, an
uncaught exception (non-zero exit with a traceback), or a completed run with
its stdout events and the rows written to `data.txt` (the writer renders them
with `str`; the rendering is abstracted as the row data). -/
inductive MainResult where
  | usage (text : String) (exitCode : Nat)
  | fatal (e : PyErr)
  | ok (events : List OutEvent) (fileRows : List (List (String × String)))

/-- Source lines 31-68: everything `main` does after the empty-argument
check. -/
def mainBody (args : List String) (env : Env) :
    Except PyErr (List OutEvent × List (List (String × String))) := do
  let flags := parse_xcodebuild_flags args
  let projectFlag ← match flags "-project" with
    | none => .error (.keyError "-project")
    | some p => pure p
  let project ← project_from_project_path projectFlag
  let scheme ← match flags "-scheme" with
    | none => .error (.keyError "-scheme")
    | some s => pure s
  let xcresult_path ← match flags "-resultBundlePath" with
    | some p => pure p
    | none => find_xcresult_path project scheme env
  let topDoc ← env.getPath xcresult_path
  let test_id ← find_test_id topDoc
  let tests_count ← find_test_count topDoc
  let n ← match pyInt tests_count with
    | none => .error (.valueError tests_count)
    | some n => pure n
  let testsDoc ← env.getId xcresult_path test_id
  let summary_id ← find_summary_id testsDoc n.toNat
  let (events, listData) ← runTests env xcresult_path summary_id
  .ok ([.line ("Number of Tests=" ++ tests_count), .idsDump summary_id] ++ events, listData)

/-- Source lines 25-68 (`main`; named `runMain` here because Lean reserves
`main` for executable entry points): print the usage text and exit with
status 1 on an empty argument list; otherwise run the pipeline, any raised
exception aborting the run. -/
def runMain (args : List String) (env : Env) : MainResult :=
  if args.isEmpty then .usage usageText 1
  else
    match mainBody args env with
    | .ok (events, rows) => .ok events rows
    | .error e => .fatal e

/-- Claim C1's capture condition as the specification phrases it: the value
occurs immediately after an occurrence of the flag name. -/
def ImmediatelyFollows (args : List String) (k v : String) : Prop :=
  ∃ i, args.get? i = some k ∧ args.get? (i + 1) = some v

/-- The capture condition the code actually implements: the value is a
non-dash token, and between it and an earlier occurrence of its (recognized)
flag every token is a dash token that is not itself a recognized flag. -/
def Captured (args : List String) (k v : String) : Prop :=
  k ∈ INTERESTING_FLAGS ∧ startsDash v = false ∧
  ∃ i j, i < j ∧ args.get? i = some k ∧ args.get? j = some v ∧
    ∀ m, i < m → m < j → ∃ t, args.get? m = some t ∧ startsDash t = true ∧ t ∉ INTERESTING_FLAGS

/-- Invariant of the pending `key` variable of the scanning loop: the flag
occurs in the processed tokens with only unrecognized dash tokens after it. -/
def KeyPending (args : List String) (k : String) : Prop :=
  k ∈ INTERESTING_FLAGS ∧
  ∃ i, args.get? i = some k ∧
    ∀ m, i < m → m < args.length → ∃ t, args.get? m = some t ∧ startsDash t = true ∧ t ∉ INTERESTING_FLAGS

/-- Loop invariant of `parse_xcodebuild_flags`: every pending key satisfies
`KeyPending` and every mapping entry satisfies `Captured`. -/
def ParseInv (args : List String) (st : (String → Option String) × Option String) : Prop :=
  (∀ k, st.2 = some k → KeyPending args k) ∧
  (∀ k v, st.1 k = some v → Captured args k v)

/-- Modelled from the spec (claim C5's round-trip side): split the
aggregator's comma-joined output on commas and zip the pieces position-wise
with the fixed label list, truncating to the shorter sequence. -/
def specRoundTrip (log : String) : List (String × String) :=
  defaultValues.zip (pySplit log)

/-- Wrap a single string value the way `xcresulttool` does
(`{"_value": s}`). -/
def wrapV (s : String) : Json := .obj [("_value", .str s)]

/-- Fixture: one subtest node holding a `summaryRef.id._value`. -/
def subtestNode (sid : String) : Json :=
  .obj [("summaryRef", .obj [("id", wrapV sid)])]

/-- Wrap a list of values the way `xcresulttool` does (`{"_values": [...]}`). -/
def wrapVals (l : List Json) : Json := .obj [("_values", .arr l)]

/-- Fixture: a test-output document in the fixed-depth shape the reader
traverses, with the given subtest summary ids. -/
def exTestsDoc (sids : List String) : Json :=
  let level3 : Json := .obj [("subtests", wrapVals (sids.map subtestNode))]
  let level2 : Json := .obj [("subtests", wrapVals [level3])]
  let level1 : Json := .obj [("subtests", wrapVals [level2])]
  let testsNode : Json := .obj [("tests", wrapVals [level1])]
  let action : Json := .obj [("testableSummaries", wrapVals [testsNode])]
  .obj [("summaries", wrapVals [action])]

/-- Fixture: a top-level bundle document with one action, the given device
model identifier, test-output id and total test count. -/
def exTop (device testId count : String) : Json :=
  .obj [
    ("actions", wrapVals [
      .obj [
        ("runDestination", .obj [("targetDeviceRecord", .obj [("modelUTI", wrapV device)])]),
        ("actionResult", .obj [("testsRef", .obj [("id", wrapV testId)])])]]),
    ("metrics", .obj [("testsCount", wrapV count)])]

/-- Fixture: a metric group whose `measurements._values` holds the given
value strings. -/
def exGroup (vals : List String) : Json :=
  .obj [("measurements", wrapVals (vals.map (fun v => .obj [("_value", .str v)])))]

/-- Fixture: an activity-log document with an identifier, a duration and the
given metric groups. -/
def exLog (name dur : String) (groups : List Json) : Json :=
  .obj [
    ("identifier", wrapV name),
    ("duration", wrapV dur),
    ("performanceMetrics", wrapVals groups)]

/-- Fixture: modification times giving `DD/Client-bbb` the later time. -/
def exMtime : String → ℚ :=
  fun s => if s = "DD/Client-bbb" then 2 else 1

theorem get?_some_lt {α : Type} {l : List α} {i : ℕ} {a : α}
    (h : l.get? i = some a) : i < l.length := by
  by_contra hlt
  rw [List.get?_eq_none.mpr (Nat.le_of_not_lt hlt)] at h
  cases h

theorem captured_append {args : List String} {k v : String} (ys : List String)
    (h : Captured args k v) : Captured (args ++ ys) k v := by
  obtain ⟨hk, hv, i, j, hij, hi, hj, hbet⟩ := h
  refine ⟨hk, hv, i, j, hij, ?_, ?_, ?_⟩
  · rw [List.get?_append (get?_some_lt hi)]; exact hi
  · rw [List.get?_append (get?_some_lt hj)]; exact hj
  · intro m him hmj
    obtain ⟨t, ht, h1, h2⟩ := hbet m him hmj
    exact ⟨t, by rw [List.get?_append (get?_some_lt ht)]; exact ht, h1, h2⟩

theorem keyPending_snoc_unrec {args : List String} {k x : String}
    (h : KeyPending args k) (hx1 : startsDash x = true) (hx2 : x ∉ INTERESTING_FLAGS) :
    KeyPending (args ++ [x]) k := by
  obtain ⟨hk, i, hi, hbet⟩ := h
  refine ⟨hk, i, by rw [List.get?_append (get?_some_lt hi)]; exact hi, ?_⟩
  intro m him hm
  rw [List.length_append, List.length_singleton] at hm
  rcases Nat.lt_or_ge m args.length with hlt | hge
  · obtain ⟨t, ht, h1, h2⟩ := hbet m him hlt
    exact ⟨t, by rw [List.get?_append (get?_some_lt ht)]; exact ht, h1, h2⟩
  · have hme : m = args.length := Nat.le_antisymm (Nat.lt_succ_iff.mp hm) hge
    subst hme
    exact ⟨x, List.get?_concat_length args x, hx1, hx2⟩

theorem keyPending_captured {args : List String} {k x : String}
    (h : KeyPending args k) (hx : startsDash x = false) :
    Captured (args ++ [x]) k x := by
  obtain ⟨hk, i, hi, hbet⟩ := h
  refine ⟨hk, hx, i, args.length, get?_some_lt hi,
    by rw [List.get?_append (get?_some_lt hi)]; exact hi,
    List.get?_concat_length args x, ?_⟩
  intro m him hm
  obtain ⟨t, ht, h1, h2⟩ := hbet m him hm
  exact ⟨t, by rw [List.get?_append (get?_some_lt ht)]; exact ht, h1, h2⟩

theorem parse_inv (args : List String) :
    ParseInv args (args.foldl parseStep (emptyFlags, none)) := by
  induction args using List.reverseRecOn with
  | nil =>
    constructor
    · intro k h; simp [List.foldl] at h
    · intro k v h; simp [List.foldl, emptyFlags] at h
  | append_singleton xs x ih =>
    rw [List.foldl_append]
    simp only [List.foldl_cons, List.foldl_nil]
    set st := xs.foldl parseStep (emptyFlags, none) with hst
    unfold parseStep
    rcases hdash : startsDash x with _ | _
    · simp only [Bool.false_eq_true, if_false]
      cases hst2 : st.2 with
      | none =>
        constructor
        · intro k hk; exact absurd hk (by simp [hst2])
        · intro k v h
          exact captured_append [x] (ih.2 k v h)
      | some key =>
        constructor
        · intro k hk; exact absurd hk (by simp)
        · intro k v h
          have h' : (if k = key then some x else st.1 k) = some v := h
          by_cases hkk : k = key
          · subst hkk
            rw [if_pos rfl] at h'
            injection h' with hv
            subst hv
            exact keyPending_captured (ih.1 k hst2) hdash
          · rw [if_neg hkk] at h'
            exact captured_append [x] (ih.2 k v h')
    · simp only [if_true]
      by_cases hmem : x ∈ INTERESTING_FLAGS
      · rw [if_pos hmem]
        constructor
        · intro k hk
          obtain rfl : x = k := by simpa using hk
          refine ⟨hmem, xs.length, List.get?_concat_length xs x, ?_⟩
          intro m him hm
          rw [List.length_append, List.length_singleton] at hm
          exact absurd (Nat.lt_succ_iff.mp hm) (Nat.not_le_of_lt him)
        · intro k v h
          exact captured_append [x] (ih.2 k v h)
      · rw [if_neg hmem]
        constructor
        · intro k hk; exact keyPending_snoc_unrec (ih.1 k hk) hdash hmem
        · intro k v h
          exact captured_append [x] (ih.2 k v h)

/-- C1 (counterexample): in the token list `["-project", "-v", "p"]` the
extractor captures `"p"` as the value of `-project`, yet `"p"` does not
immediately follow the recognized flag name — an unrecognized dash token
does not clear the pending flag, contradicting the claim's only-immediately-
following condition. -/
theorem C1_counterexample :
    parse_xcodebuild_flags ["-project", "-v", "p"] "-project" = some "p" ∧
    ¬ ImmediatelyFollows ["-project", "-v", "p"] "-project" "p" := by
  constructor
  · decide
  · rintro ⟨i, h1, h2⟩
    have hb : i < 3 := get?_some_lt h1
    interval_cases i
    · exact absurd h2 (by decide)
    · exact absurd h1 (by decide)
    · exact absurd h2 (by decide)

/-- C1 (amended): a token is captured as the value of a recognized flag
exactly under the code's condition — it is a non-dash token, some earlier
occurrence of the flag precedes it, and every token in between is a dash
token that is not itself a recognized flag (so a value need not be the
immediately following token); a recognized flag never followed by such a
token contributes nothing, and all other tokens are ignored. -/
theorem C1_amended_capture (args : List String) (k v : String)
    (h : parse_xcodebuild_flags args k = some v) : Captured args k v :=
  (parse_inv args).2 k v h

/-- Witness for C1's amended theorem at a concrete input. -/
theorem C1_amended_witness : Captured ["-scheme", "Fennec"] "-scheme" "Fennec" :=
  C1_amended_capture ["-scheme", "Fennec"] "-scheme" "Fennec" (by decide)

theorem bindE_ok {α β : Type} {x : Except PyErr α} {f : α → Except PyErr β} {b : β}
    (h : (x >>= f) = .ok b) : ∃ a, x = .ok a ∧ f a = .ok b := by
  cases x with
  | error e => simp [Bind.bind, Except.bind] at h
  | ok a => exact ⟨a, rfl, by simpa [Bind.bind, Except.bind] using h⟩

theorem exceptMapL_ok_length {α β : Type} (f : α → Except PyErr β) :
    ∀ (xs : List α) (ys : List β), exceptMapL f xs = .ok ys → ys.length = xs.length := by
  intro xs
  induction xs with
  | nil =>
    intro ys h
    unfold exceptMapL at h
    injection h with h
    rw [← h]
    rfl
  | cons x xs ih =>
    intro ys h
    unfold exceptMapL at h
    obtain ⟨y, hy, h⟩ := bindE_ok h
    obtain ⟨ys', hys, h⟩ := bindE_ok h
    injection h with h
    rw [← h]
    simp [ih ys' hys]

/-- C10: when a recognized flag occurs more than once, each occurrence
followed by a captured value, the mapping holds the value captured for the
last occurrence — dict assignment overwrites the earlier capture. -/
theorem C10_last_wins (xs ys : List String) (f v w : String)
    (hf : f ∈ INTERESTING_FLAGS) (hv : startsDash v = false) (hw : startsDash w = false) :
    parse_xcodebuild_flags (xs ++ [f, v] ++ ys ++ [f, w]) f = some w := by
  have hfd : startsDash f = true := by fin_cases hf <;> decide
  show (List.foldl parseStep (emptyFlags, none) (xs ++ [f, v] ++ ys ++ [f, w])).1 f = some w
  simp only [List.foldl_append, List.foldl_cons, List.foldl_nil]
  simp [parseStep, hfd, hf, hw, setFlag]

/-- Witness for C10 at a concrete input. -/
theorem C10_last_wins_witness :
    parse_xcodebuild_flags ["-scheme", "A", "-scheme", "B"] "-scheme" = some "B" :=
  C10_last_wins [] [] "-scheme" "A" "B" (by decide) (by decide) (by decide)

/-- C2: whenever the reader succeeds, the number of summary ids it returns
equals the count it was asked for — in `main`, the reported
`metrics.testsCount` value; one id is collected per subtest index. -/
theorem C2_summary_count (top testsDoc : Json) (s : String) (n : ℤ) (l : List String)
    (h1 : find_test_count top = .ok s) (h2 : pyInt s = some n)
    (h3 : find_summary_id testsDoc n.toNat = .ok l) : l.length = n.toNat := by
  unfold find_summary_id at h3
  obtain ⟨j1, hj1, h3⟩ := bindE_ok h3
  obtain ⟨actions, hac, h3⟩ := bindE_ok h3
  obtain ⟨action, hat, h3⟩ := bindE_ok h3
  rw [exceptMapL_ok_length (summaryAt action) (List.range n.toNat) l h3]
  exact List.length_range n.toNat

/-- Witness for C2: a fixture reporting `testsCount` 3 yields exactly 3
summary identifiers. -/
theorem C2_summary_count_witness :
    find_summary_id (exTestsDoc ["A", "B", "C"]) ((3 : ℤ)).toNat = .ok ["A", "B", "C"] ∧
    (["A", "B", "C"] : List String).length = ((3 : ℤ)).toNat :=
  ⟨by rfl,
   C2_summary_count (exTop "iphone" "TID" "3") (exTestsDoc ["A", "B", "C"]) "3" 3 ["A", "B", "C"]
     (by rfl) (by decide) (by rfl)⟩

theorem metricGroup_mean {g : Json} {qs : List PyF}
    (h : groupValues g = .ok qs) (hne : qs ≠ []) :
    metricGroup g = .ok (floatStr (PyF.divNat (sumF qs) qs.length)) := by
  unfold metricGroup
  rw [h]
  cases qs with
  | nil => exact absurd rfl hne
  | cons a l => rfl

theorem metricGroup_empty {g : Json} (h : groupValues g = .ok []) :
    metricGroup g = .error .zeroDivisionError := by
  unfold metricGroup
  rw [h]
  rfl

theorem identifierItems_of {log : Json} {nm : String}
    (h : log.dictGet "identifier" = .ok (some (wrapV nm))) :
    identifierItems log = .ok [nm] := by
  unfold identifierItems
  rw [h]
  rfl

theorem durationItems_of {log : Json} {ds : String} {q : PyF}
    (h : log.dictGet "duration" = .ok (some (wrapV ds))) (hq : parsePyFloat ds = some q) :
    durationItems log = .ok [formatF2 q] := by
  unfold durationItems
  rw [h]
  simp [Bind.bind, Except.bind, wrapV, Json.sub, lookupKey, truthy, pyFloat, hq, Json.asStr]

theorem metricItems_groups {log : Json} {gs : List Json}
    (h : log.dictGet "performanceMetrics" = .ok (some (wrapVals gs))) :
    metricItems log = exceptMapL metricGroup gs := by
  unfold metricItems
  rw [h]
  rfl

theorem collect_parts {log : Json} {a b c : List String}
    (h1 : identifierItems log = .ok a) (h2 : durationItems log = .ok b)
    (h3 : metricItems log = .ok c) :
    collect_log_output log = .ok (a ++ b ++ c) := by
  unfold collect_log_output
  rw [h1]
  simp [Bind.bind, Except.bind, h2, h3]

theorem collect_metrics_error {log : Json} {a b : List String} {e : PyErr}
    (h1 : identifierItems log = .ok a) (h2 : durationItems log = .ok b)
    (h3 : metricItems log = .error e) :
    collect_log_output log = .error e := by
  unfold collect_log_output
  rw [h1]
  simp [Bind.bind, Except.bind, h2, h3]

theorem export_of_collect {doc : Json} {items : List String}
    (h : collect_log_output doc = .ok items) : export_log doc = .ok (joinC items) := by
  unfold export_log
  rw [h]
  rfl

theorem exceptMapL_of_forall₂ {α β : Type} {f : α → Except PyErr β} :
    ∀ {gs : List α} {ms : List β},
      List.Forall₂ (fun g m => f g = .ok m) gs ms → exceptMapL f gs = .ok ms := by
  intro gs ms h
  induction h with
  | nil => rfl
  | cons hgm _ ih => simp [exceptMapL, hgm, ih, Bind.bind, Except.bind]

theorem exceptMapL_append_error {α β : Type} (f : α → Except PyErr β)
    (pre : List α) (g : α) (post : List α) (e : PyErr)
    (hpre : ∀ a ∈ pre, ∃ b, f a = .ok b) (hg : f g = .error e) :
    exceptMapL f (pre ++ g :: post) = .error e := by
  induction pre with
  | nil => simp [exceptMapL, hg, Bind.bind, Except.bind]
  | cons a l ih =>
    obtain ⟨b, hb⟩ := hpre a (List.mem_cons_self a l)
    have ih' := ih (fun x hx => hpre x (List.mem_cons_of_mem a hx))
    simp [exceptMapL, hb, ih', Bind.bind, Except.bind]

theorem exceptMapL_total {α β : Type} (f : α → Except PyErr β) (l : List α)
    (h : ∀ a ∈ l, ∃ b, f a = .ok b) : ∃ ys, exceptMapL f l = .ok ys := by
  induction l with
  | nil => exact ⟨[], rfl⟩
  | cons a l ih =>
    obtain ⟨b, hb⟩ := h a (List.mem_cons_self a l)
    obtain ⟨ys, hys⟩ := ih (fun x hx => h x (List.mem_cons_of_mem a hx))
    exact ⟨b :: ys, by simp [exceptMapL, hb, hys, Bind.bind, Except.bind]⟩

/-- C3: whenever a metric group's measurement values parse to a non-empty
list, the aggregator emits exactly the arithmetic mean of the values — the
left-fold sum divided by the count — rendered through the float-to-string
conversion. -/
theorem C3_metric_mean (g : Json) (qs : List PyF)
    (h : groupValues g = .ok qs) (hne : qs ≠ []) :
    metricGroup g = .ok (floatStr (PyF.divNat (sumF qs) qs.length)) :=
  metricGroup_mean h hne

/-- Witness for C3: measurement values 1.0, 2.0, 3.0 yield the string
`"2.0"`. -/
theorem C3_metric_mean_witness :
    metricGroup (exGroup ["1.0", "2.0", "3.0"]) = .ok "2.0" :=
  (C3_metric_mean (exGroup ["1.0", "2.0", "3.0"]) [⟨10, 10⟩, ⟨20, 10⟩, ⟨30, 10⟩]
    (by rfl) (by simp)).trans (by decide)

/-- C4: for an activity-log document carrying an identifier, a duration and a
sequence of metric groups, the aggregator's items are the test name, the
duration formatted to two decimal places, then one mean per group in document
order, and the exported string is their comma-join. -/
theorem C4_output_order (log : Json) (nm ds : String) (q : PyF) (gs : List Json)
    (ms : List String)
    (hid : log.dictGet "identifier" = .ok (some (wrapV nm)))
    (hdur : log.dictGet "duration" = .ok (some (wrapV ds)))
    (hq : parsePyFloat ds = some q)
    (hpm : log.dictGet "performanceMetrics" = .ok (some (wrapVals gs)))
    (hms : List.Forall₂ (fun g m => metricGroup g = .ok m) gs ms) :
    collect_log_output log = .ok (nm :: formatF2 q :: ms) ∧
    export_log log = .ok (joinC (nm :: formatF2 q :: ms)) := by
  have ha := identifierItems_of hid
  have hb := durationItems_of hdur hq
  have hc : metricItems log = .ok ms := (metricItems_groups hpm).trans (exceptMapL_of_forall₂ hms)
  have h := collect_parts ha hb hc
  have hl : ([nm] : List String) ++ [formatF2 q] ++ ms = nm :: formatF2 q :: ms := by simp
  rw [hl] at h
  exact ⟨h, export_of_collect h⟩

/-- Witness for C4: a two-group document exports
`"T1,12.34,2.0,3.0"` — name, two-decimal duration, then the group means in
order. -/
theorem C4_output_order_witness :
    export_log (exLog "T1" "12.345" [exGroup ["1.0", "2.0", "3.0"], exGroup ["2.0", "4.0"]]) =
      .ok "T1,12.34,2.0,3.0" :=
  ((C4_output_order (exLog "T1" "12.345" [exGroup ["1.0", "2.0", "3.0"], exGroup ["2.0", "4.0"]])
      "T1" "12.345" ⟨12345, 1000⟩ [exGroup ["1.0", "2.0", "3.0"], exGroup ["2.0", "4.0"]]
      ["2.0", "3.0"] (by rfl) (by rfl) (by decide) (by rfl)
      (List.Forall₂.cons (by decide) (List.Forall₂.cons (by decide) List.Forall₂.nil))).2).trans
    (by decide)

/-- C9: if some metric group has an empty measurements list — all groups
before it being well-formed and non-empty — the aggregator raises
`ZeroDivisionError` from the unguarded division by the count; and when every
group has at least one parseable value the aggregation is total. -/
theorem C9_zero_division (log : Json) (items1 items2 : List String) (gs : List Json)
    (h1 : identifierItems log = .ok items1) (h2 : durationItems log = .ok items2)
    (h3 : log.dictGet "performanceMetrics" = .ok (some (wrapVals gs))) :
    (∀ pre g post, gs = pre ++ g :: post →
      (∀ g' ∈ pre, ∃ qs, groupValues g' = .ok qs ∧ qs ≠ []) →
      groupValues g = .ok [] →
      collect_log_output log = .error .zeroDivisionError) ∧
    ((∀ g' ∈ gs, ∃ qs, groupValues g' = .ok qs ∧ qs ≠ []) →
      ∃ out, collect_log_output log = .ok out) := by
  constructor
  · intro pre g post hsplit hpre hg
    have hpre' : ∀ g' ∈ pre, ∃ m, metricGroup g' = .ok m := by
      intro g' hg'
      obtain ⟨qs, hq, hne⟩ := hpre g' hg'
      exact ⟨_, metricGroup_mean hq hne⟩
    have hmi : metricItems log = .error .zeroDivisionError := by
      rw [metricItems_groups h3, hsplit]
      exact exceptMapL_append_error metricGroup pre g post _ hpre' (metricGroup_empty hg)
    exact collect_metrics_error h1 h2 hmi
  · intro hall
    have hok : ∀ g' ∈ gs, ∃ m, metricGroup g' = .ok m := by
      intro g' hg'
      obtain ⟨qs, hq, hne⟩ := hall g' hg'
      exact ⟨_, metricGroup_mean hq hne⟩
    obtain ⟨ms, hms⟩ := exceptMapL_total metricGroup gs hok
    exact ⟨items1 ++ items2 ++ ms, collect_parts h1 h2 ((metricItems_groups h3).trans hms)⟩

/-- Witness for C9: a document whose second metric group has no measurement
values makes the aggregator fail with `ZeroDivisionError`. -/
theorem C9_zero_division_witness :
    collect_log_output (exLog "T1" "1.0" [exGroup ["1.0"], exGroup []]) =
      .error .zeroDivisionError :=
  (C9_zero_division (exLog "T1" "1.0" [exGroup ["1.0"], exGroup []]) ["T1"] ["1.00"]
      [exGroup ["1.0"], exGroup []] (by rfl) (by decide) (by rfl)).1
    [exGroup ["1.0"]] (exGroup []) [] (by rfl)
    (by
      intro g' hg'
      have hg'' : g' = exGroup ["1.0"] := by simpa using hg'
      subst hg''
      exact ⟨[⟨10, 10⟩], by rfl, by simp⟩)
    (by rfl)

theorem pySplit_joinC {items : List String} (hne : items ≠ [])
    (hc : ∀ s ∈ items, ',' ∉ s.data) : pySplit (joinC items) = items := by
  unfold pySplit joinC
  have hx : ∀ l ∈ items.map String.data, ',' ∉ l := by
    intro l hl
    obtain ⟨s, hs, rfl⟩ := List.mem_map.mp hl
    exact hc s hs
  have hls : items.map String.data ≠ [] := by simpa using hne
  have h1 : (⟨List.intercalate [','] (items.map String.data)⟩ : String).data
      = List.intercalate [','] (items.map String.data) := rfl
  rw [h1, List.splitOn_intercalate (items.map String.data) ',' hx hls, List.map_map]
  have h2 : ((fun l => (⟨l⟩ : String)) ∘ String.data) = id := funext fun s => rfl
  rw [h2, List.map_id]

/-- C5: the round-trip the specification describes — splitting the
aggregator's comma-joined output on commas and zipping position-wise with the
fixed label list, truncating to the shorter sequence — is exactly the mapping
`main` prints per test; moreover, when the collected items are non-empty and
comma-free, splitting the exported string recovers them, so the printed
mapping is the label list zipped with the collected items themselves. -/
theorem C5_roundtrip :
    (∀ log : String,
      specRoundTrip log = dictOfData log ∧
      (dictOfData log).length = min defaultValues.length (pySplit log).length) ∧
    (∀ (doc : Json) (items : List String),
      collect_log_output doc = .ok items → items ≠ [] →
      (∀ s ∈ items, ',' ∉ s.data) →
      export_log doc = .ok (joinC items) ∧
      dictOfData (joinC items) = defaultValues.zip items) := by
  constructor
  · intro log
    exact ⟨rfl, List.length_zip _ _⟩
  · intro doc items hc hne hcomma
    refine ⟨export_of_collect hc, ?_⟩
    unfold dictOfData
    rw [pySplit_joinC hne hcomma]

/-- Witness for C5 at a concrete aggregator output. -/
theorem C5_roundtrip_witness :
    export_log (exLog "T1" "12.345" [exGroup ["1.0", "2.0", "3.0"]]) = .ok "T1,12.34,2.0" ∧
    dictOfData "T1,12.34,2.0" =
      [("testName", "T1"), ("Duration", "12.34"), ("Disk Local Writes", "2.0")] := by
  have h := C5_roundtrip.2 (exLog "T1" "12.345" [exGroup ["1.0", "2.0", "3.0"]])
    ["T1", "12.34", "2.0"] (by decide) (by decide) (by decide)
  exact ⟨h.1.trans (by decide), (congrArg dictOfData (by decide : "T1,12.34,2.0" = joinC ["T1", "12.34", "2.0"])).trans (h.2.trans (by decide))⟩

theorem newest_mono (path : String) (pat : String → Bool) (mtime : String → ℚ) :
    ∀ (entries : List String) (acc : Option String) (r : String),
      entries.foldl (newestStep path pat mtime) acc = some r →
      ∀ a, acc = some a → mtime a ≤ mtime r := by
  intro entries
  induction entries with
  | nil =>
    intro acc r h a ha
    rw [List.foldl_nil] at h
    rw [ha] at h
    injection h with h
    rw [h]
  | cons e rest ih =>
    intro acc r h a ha
    rw [List.foldl_cons] at h
    subst ha
    by_cases hpe : pat e = true
    · rcases lt_or_ge (mtime a) (mtime (path ++ "/" ++ e)) with hlt | hge
      · have hstep : newestStep path pat mtime (some a) e = some (path ++ "/" ++ e) := by
          simp [newestStep, hpe, hlt]
        rw [hstep] at h
        exact le_of_lt (lt_of_lt_of_le hlt (ih _ r h _ rfl))
      · have hnlt : ¬ mtime a < mtime (path ++ "/" ++ e) := not_lt.mpr hge
        have hstep : newestStep path pat mtime (some a) e = some a := by
          simp [newestStep, hpe, hnlt]
        rw [hstep] at h
        exact ih _ r h _ rfl
    · have hstep : newestStep path pat mtime (some a) e = some a := by
        simp [newestStep, hpe]
      rw [hstep] at h
      exact ih _ r h _ rfl

theorem newest_max (path : String) (pat : String → Bool) (mtime : String → ℚ) :
    ∀ (entries : List String) (acc : Option String) (r : String),
      entries.foldl (newestStep path pat mtime) acc = some r →
      ∀ e ∈ entries, pat e = true → mtime (path ++ "/" ++ e) ≤ mtime r := by
  intro entries
  induction entries with
  | nil => intro acc r _ e he; exact absurd he (List.not_mem_nil e)
  | cons x rest ih =>
    intro acc r h e he hpe
    rw [List.foldl_cons] at h
    rcases List.mem_cons.mp he with rfl | hmem
    · cases acc with
      | none =>
        have hstep : newestStep path pat mtime none e = some (path ++ "/" ++ e) := by
          simp [newestStep, hpe]
        rw [hstep] at h
        exact newest_mono path pat mtime rest _ r h _ rfl
      | some a =>
        rcases lt_or_ge (mtime a) (mtime (path ++ "/" ++ e)) with hlt | hge
        · have hstep : newestStep path pat mtime (some a) e = some (path ++ "/" ++ e) := by
            simp [newestStep, hpe, hlt]
          rw [hstep] at h
          exact newest_mono path pat mtime rest _ r h _ rfl
        · have hnlt : ¬ mtime a < mtime (path ++ "/" ++ e) := not_lt.mpr hge
          have hstep : newestStep path pat mtime (some a) e = some a := by
            simp [newestStep, hpe, hnlt]
          rw [hstep] at h
          exact le_trans hge (newest_mono path pat mtime rest _ r h _ rfl)
    · exact ih _ r h e hmem hpe

theorem newest_prov (path : String) (pat : String → Bool) (mtime : String → ℚ) :
    ∀ (entries : List String) (acc : Option String) (r : String),
      entries.foldl (newestStep path pat mtime) acc = some r →
      acc = some r ∨ ∃ e ∈ entries, pat e = true ∧ r = path ++ "/" ++ e := by
  intro entries
  induction entries with
  | nil => intro acc r h; rw [List.foldl_nil] at h; exact Or.inl h
  | cons e rest ih =>
    intro acc r h
    rw [List.foldl_cons] at h
    rcases ih _ r h with hacc | ⟨e', he', hp', hr'⟩
    · by_cases hpe : pat e = true
      · cases acc with
        | none =>
          have hstep : newestStep path pat mtime none e = some (path ++ "/" ++ e) := by
            simp [newestStep, hpe]
          rw [hstep] at hacc
          injection hacc with hacc
          exact Or.inr ⟨e, List.mem_cons_self e rest, hpe, hacc.symm⟩
        | some a =>
          rcases lt_or_ge (mtime a) (mtime (path ++ "/" ++ e)) with hlt | hge
          · have hstep : newestStep path pat mtime (some a) e = some (path ++ "/" ++ e) := by
              simp [newestStep, hpe, hlt]
            rw [hstep] at hacc
            injection hacc with hacc
            exact Or.inr ⟨e, List.mem_cons_self e rest, hpe, hacc.symm⟩
          · have hnlt : ¬ mtime a < mtime (path ++ "/" ++ e) := not_lt.mpr hge
            have hstep : newestStep path pat mtime (some a) e = some a := by
              simp [newestStep, hpe, hnlt]
            rw [hstep] at hacc
            exact Or.inl hacc
      · have hstep : newestStep path pat mtime acc e = acc := by
          simp [newestStep, hpe]
        rw [hstep] at hacc
        exact Or.inl hacc
    · exact Or.inr ⟨e', List.mem_cons_of_mem e he', hp', hr'⟩

theorem newest_none (path : String) (pat : String → Bool) (mtime : String → ℚ) :
    ∀ (entries : List String) (acc : Option String),
      (∀ e ∈ entries, pat e = false) →
      entries.foldl (newestStep path pat mtime) acc = acc := by
  intro entries
  induction entries with
  | nil => intro acc _; rfl
  | cons e rest ih =>
    intro acc h
    rw [List.foldl_cons]
    have hpe : pat e = false := h e (List.mem_cons_self e rest)
    have hstep : newestStep path pat mtime acc e = acc := by
      simp [newestStep, hpe]
    rw [hstep]
    exact ih acc (fun x hx => h x (List.mem_cons_of_mem e hx))

/-- C6: the bundle locator considers only entries matching the given name
pattern and, when it returns an entry, that entry matches and carries the
greatest modification time among all matching entries; with no matching entry
the scan yields nothing and `find_xcresult_path` raises the lookup error,
while a located bundle is returned as is. -/
theorem C6_newest_matching (path : String) (pat : String → Bool) (mt : String → ℚ)
    (entries : List String) :
    (∀ r, find_newest_matching_prefix path pat mt entries = some r →
      (∃ e ∈ entries, pat e = true ∧ r = path ++ "/" ++ e) ∧
      ∀ e ∈ entries, pat e = true → mt (path ++ "/" ++ e) ≤ mt r) ∧
    ((∀ e ∈ entries, pat e = false) →
      find_newest_matching_prefix path pat mt entries = none) ∧
    (∀ (project scheme : String) (env : Env) (pp : String),
      find_project_path project env = .ok pp →
      env.listdir (pp ++ "/Logs/Test") = .ok entries →
      ((∀ e ∈ entries, schemePat scheme e = false) →
        find_xcresult_path project scheme env =
          .error (.lookupError ("Could not find xcresult bundle for " ++ scheme ++ " in " ++
            (pp ++ "/Logs/Test")))) ∧
      (∀ r,
        find_newest_matching_prefix (pp ++ "/Logs/Test") (schemePat scheme) env.mtime entries
          = some r →
        find_xcresult_path project scheme env = .ok r)) := by
  refine ⟨?_, ?_, ?_⟩
  · intro r hr
    rcases newest_prov path pat mt entries none r hr with h | h
    · exact Option.noConfusion h
    · exact ⟨h, fun e he hpe => newest_max path pat mt entries none r hr e he hpe⟩
  · intro hall
    exact newest_none path pat mt entries none hall
  · intro project scheme env pp hpp hls
    constructor
    · intro hall
      have hnone :
          find_newest_matching_prefix (pp ++ "/Logs/Test") (schemePat scheme) env.mtime entries
            = none :=
        newest_none _ _ _ entries none hall
      unfold find_xcresult_path
      rw [hpp]
      simp [Bind.bind, Except.bind, hls, hnone]
    · intro r hr
      unfold find_xcresult_path
      rw [hpp]
      simp [Bind.bind, Except.bind, hls, hr]

/-- Witness for C6: with entries `Client-aaa`, `Client-bbb` and the latter
carrying the later modification time, the scan returns `Client-bbb`, which is
a matching entry of maximal modification time. -/
theorem C6_newest_matching_witness :
    find_newest_matching_prefix "DD" (projectPat "Client") exMtime ["Client-aaa", "Client-bbb"]
        = some "DD/Client-bbb" ∧
    ((∃ e ∈ ["Client-aaa", "Client-bbb"], projectPat "Client" e = true ∧
        "DD/Client-bbb" = "DD" ++ "/" ++ e) ∧
      ∀ e ∈ ["Client-aaa", "Client-bbb"], projectPat "Client" e = true →
        exMtime ("DD" ++ "/" ++ e) ≤ exMtime "DD/Client-bbb") :=
  ⟨by decide,
   (C6_newest_matching "DD" (projectPat "Client") exMtime ["Client-aaa", "Client-bbb"]).1
     "DD/Client-bbb" (by decide)⟩

theorem splitext_append (b : String) : (splitext b).1 ++ (splitext b).2 = b := by
  unfold splitext
  cases hgl : lastDotIdx b.data with
  | none => simp
  | some d =>
    dsimp only
    by_cases hall : ((b.data.take d).all fun c => decide (c = '.')) = true
    · rw [if_pos hall]
      simp
    · rw [if_neg hall]
      show (⟨b.data.take d ++ b.data.drop d⟩ : String) = b
      rw [List.take_append_drop]

/-- C7: the project-name extraction succeeds exactly on paths whose basename
splits off the `.xcodeproj` extension — in which case the basename is the
returned root with the extension re-appended — and raises the `ValueError`
with the invalid-path message on every other extension. -/
theorem C7_project_path (path : String) :
    (∀ r, project_from_project_path path = .ok r →
      (splitext (basename path)).2 = ".xcodeproj" ∧ basename path = r ++ ".xcodeproj") ∧
    ((splitext (basename path)).2 ≠ ".xcodeproj" →
      project_from_project_path path =
        .error (.valueError (path ++ " is not a valid project path"))) := by
  constructor
  · intro r hr
    unfold project_from_project_path at hr
    by_cases hx : (splitext (basename path)).2 = ".xcodeproj"
    · refine ⟨hx, ?_⟩
      rw [if_pos hx] at hr
      injection hr with hr
      rw [← hr, ← hx]
      exact (splitext_append (basename path)).symm
    · rw [if_neg hx] at hr
      cases hr
  · intro hx
    unfold project_from_project_path
    rw [if_neg hx]

/-- Witness for C7: `Client/Example/Client.xcodeproj` yields `Client`, whose
basename is the root plus the recognized extension. -/
theorem C7_project_path_witness :
    project_from_project_path "Client/Example/Client.xcodeproj" = .ok "Client" ∧
    basename "Client/Example/Client.xcodeproj" = "Client" ++ ".xcodeproj" :=
  ⟨by rfl, ((C7_project_path "Client/Example/Client.xcodeproj").1 "Client" (by rfl)).2⟩

/-- C8: on an empty argument list the program emits the module docstring as
its usage text and exits with status code 1; the outcome is identical for
every environment, so no filesystem, subprocess or output work is performed. -/
theorem C8_usage_exit (env : Env) : runMain [] env = .usage usageText 1 := rfl
